import Mathlib

/-!
Verification of the ED Auto Mission repository core logic.

Python strings are embedded as `List Char`; `str.upper` is modelled
character-wise by `Char.toUpper` (ASCII case mapping), `str.isdigit` by
`Char.isDigit` (ASCII digits 0-9), and `needle in text` by list infix
containment.  Machine integers are `Int`/`Nat` (Python integers are
unbounded).  Floating-point arithmetic in screen scaling is modelled
exactly over `ℚ`, with `int(...)` as truncation toward zero and
`ZeroDivisionError` as `none`.
-/

namespace EDAM

/-- Model of Python `str.upper`, applied character-wise (ASCII). -/
def pyUpper (s : List Char) : List Char := s.map Char.toUpper

/-- Model of Python `str.strip` (remove leading and trailing whitespace). -/
def pyStrip (s : List Char) : List Char :=
  ((s.dropWhile Char.isWhitespace).reverse.dropWhile Char.isWhitespace).reverse

/-- Model of the Python substring test `needle in hay`. -/
def pyContains (hay needle : List Char) : Bool := decide (needle <:+: hay)

/-- `MissionRule` from `src/ed_auto_mission/core/types.py` (lines 62-94). -/
structure MissionRule where
  needles : List (List (List Char))
  label : List Char
  wing : Bool := false
  value : Int := 0
  categories : List (List Char) := []
deriving DecidableEq

/-- `MissionRule.matches` from `src/ed_auto_mission/core/types.py`
(lines 80-89): uppercase the text, and require that every needle group
has at least one needle (uppercased) contained in the text. -/
def MissionRule.matches (r : MissionRule) (text : List Char) : Bool :=
  let upperText := pyUpper text
  r.needles.all (fun group => group.any (fun needle => pyContains upperText (pyUpper needle)))

/-- Characters collected by the backward scan of `_extract_credit_value`:
`mission_text[i].isdigit() or mission_text[i] == ","`. -/
def isDigitOrComma (c : Char) : Bool := c.isDigit || c == ','

/-- Model of `upper_text.find("CR")`: index of the first position whose
suffix starts with `"CR"`, or `none` (Python returns `-1`). -/
def findCR : List Char → Option Nat
  | [] => none
  | c :: rest =>
    if ['C', 'R'] <+: c :: rest then some 0
    else (findCR rest).map (· + 1)

/-- Model of Python `int(...)` on a nonempty string of ASCII digits. -/
def parseDigits (l : List Char) : Nat :=
  l.foldl (fun a c => a * 10 + (c.toNat - 48)) 0

/-- `MissionRunner._extract_credit_value` from
`src/ed_auto_mission/core/mission_runner.py` (lines 85-108): find `"CR"`
in the uppercased text, walk backwards over digit/comma characters,
reverse the collected run, drop the commas and parse the digits.
The backward walk from `idx - 1` is `(text.take idx).reverse.takeWhile`. -/
def extractCreditValue (text : List Char) : Option Nat :=
  match findCR (pyUpper text) with
  | none => none
  | some idx =>
    let digits := (text.take idx).reverse.takeWhile isDigitOrComma
    if digits = [] then none
    else
      let numStr := digits.reverse.filter (fun c => c ≠ ',')
      if numStr = [] then none
      else some (parseDigits numStr)

/-- `MissionRunner._should_accept_mission` from
`src/ed_auto_mission/core/mission_runner.py` (lines 53-83).
`wingCheck` models `self.game.check_wing_mission()`: `some b` when the
call returns `b`, `none` when it raises `NotImplementedError` (which the
code catches and turns into a rejection). -/
def shouldAcceptMission (wingCheck : Option Bool) (rule : MissionRule)
    (text : List Char) (credit : Option Nat) : Bool :=
  if rule.matches text = false then false
  else
    let wingPass : Bool :=
      if rule.wing then
        match wingCheck with
        | some w => w
        | none => false
      else true
    if wingPass = false then false
    else
      match credit with
      | none => false
      | some c => if (c : Int) ≤ rule.value then false else true

/-! ## Mission registry (`src/ed_auto_mission/core/mission_registry.py`)

The registry state is the mutex-guarded list `self._missions`; each public
operation is a state transformer on `List MissionRule`. -/

/-- `MissionRegistry.__init__` (lines 19-24): start from the given rules. -/
def registryInit (missions : List MissionRule) : List MissionRule := missions

/-- `MissionRegistry.add` (lines 26-43): build a rule from the arguments
(label stripped, categories defaulted to empty) and append it. -/
def registryAdd (st : List MissionRule) (needles : List (List (List Char)))
    (label : List Char) (wing : Bool) (value : Int)
    (categories : Option (List (List Char))) : List MissionRule :=
  st ++ [{ needles := needles, label := pyStrip label, wing := wing, value := value,
           categories := match categories with | some cs => cs | none => [] }]

/-- `MissionRegistry.add_rule` (lines 45-48): append the given rule. -/
def registryAddRule (st : List MissionRule) (rule : MissionRule) : List MissionRule :=
  st ++ [rule]

/-- `MissionRegistry.add_many` (lines 50-56): append all given rules. -/
def registryAddMany (st : List MissionRule) (missions : List MissionRule) : List MissionRule :=
  st ++ missions

/-- The argument of `MissionRegistry.remove`: a `MissionRule` or a label string. -/
def RemoveArg := Sum MissionRule (List Char)

/-- One loop iteration test of `MissionRegistry.remove` (lines 58-70):
`existing == mission` (false between a rule and a string, as in Python),
then, when the argument is a string, `mission == existing.label`. -/
def removeHit (target : RemoveArg) (existing : MissionRule) : Bool :=
  match target with
  | .inl rule => decide (existing = rule)
  | .inr label => decide (existing.label = label)

/-- `MissionRegistry.remove` (lines 58-70): pop the first rule the loop
test hits and return `true`; otherwise return `false` with the list
unchanged. -/
def registryRemove (target : RemoveArg) : List MissionRule → Bool × List MissionRule
  | [] => (false, [])
  | r :: rest =>
    if removeHit target r then (true, rest)
    else
      let p := registryRemove target rest
      (p.1, r :: p.2)

/-- `MissionRegistry.clear` (lines 91-93). -/
def registryClear (_st : List MissionRule) : List MissionRule := []

/-- `MissionRegistry.get_unique_categories` (lines 76-85): iterate rules,
then their categories, keeping the first occurrence of each category. -/
def getUniqueCategories (st : List MissionRule) : List (List Char) :=
  (st.flatMap (fun m => m.categories)).foldl
    (fun acc c => if c ∈ acc then acc else acc ++ [c]) []

/-- `MissionRegistry.get_rules_for_category` (lines 87-89). -/
def getRulesForCategory (st : List MissionRule) (category : List Char) : List MissionRule :=
  st.filter (fun m => category ∈ m.categories)

/-- States reachable through the registry's public operations.  Since
`__init__` accepts an arbitrary iterable of rules, every list is
reachable. -/
inductive RegistryReachable : List MissionRule → Prop
  | init (missions : List MissionRule) : RegistryReachable (registryInit missions)
  | add (st needles label wing value categories) : RegistryReachable st →
      RegistryReachable (registryAdd st needles label wing value categories)
  | addRule (st rule) : RegistryReachable st → RegistryReachable (registryAddRule st rule)
  | addMany (st missions) : RegistryReachable st →
      RegistryReachable (registryAddMany st missions)
  | remove (st target) : RegistryReachable st →
      RegistryReachable (registryRemove target st).2
  | clear (st) : RegistryReachable st → RegistryReachable (registryClear st)

/-- A rule all of whose needle groups are non-empty. -/
def MissionRule.validGroups (r : MissionRule) : Prop := ∀ g ∈ r.needles, g ≠ []

/-- States reachable when every rule handed to `__init__`, `add`,
`add_rule` and `add_many` has only non-empty needle groups. -/
inductive RegistryReachableValid : List MissionRule → Prop
  | init (missions : List MissionRule) (h : ∀ r ∈ missions, r.validGroups) :
      RegistryReachableValid (registryInit missions)
  | add (st needles label wing value categories) (h : ∀ g ∈ needles, g ≠ []) :
      RegistryReachableValid st →
      RegistryReachableValid (registryAdd st needles label wing value categories)
  | addRule (st rule) (h : rule.validGroups) : RegistryReachableValid st →
      RegistryReachableValid (registryAddRule st rule)
  | addMany (st missions) (h : ∀ r ∈ missions, r.validGroups) :
      RegistryReachableValid st → RegistryReachableValid (registryAddMany st missions)
  | remove (st target) : RegistryReachableValid st →
      RegistryReachableValid (registryRemove target st).2
  | clear (st) : RegistryReachableValid st → RegistryReachableValid (registryClear st)

/-! ## Screen scaling (`src/ed_auto_mission/core/types.py`, lines 9-59)

Python float division and multiplication are modelled exactly over `ℚ`;
`int(...)` is truncation toward zero; division by zero
(`ZeroDivisionError`) is `none`. -/

/-- Model of Python `int(...)` applied to a float: truncation toward zero. -/
def pyTruncToInt (q : ℚ) : Int := if 0 ≤ q then ⌊q⌋ else ⌈q⌉

/-- `ScreenRegion` from `src/ed_auto_mission/core/types.py` (lines 9-18). -/
structure ScreenRegion where
  x : Int
  y : Int
  width : Int
  height : Int
  ref_width : Int := 3840
  ref_height : Int := 2160
deriving DecidableEq

/-- `ScreenRegion.scaled` (lines 20-31): divide the screen dimensions by
the reference dimensions and truncate each scaled coordinate. -/
def ScreenRegion.scaled (r : ScreenRegion) (screen_width screen_height : Int) :
    Option (Int × Int × Int × Int) :=
  if r.ref_width = 0 ∨ r.ref_height = 0 then none
  else
    let scaleX : ℚ := (screen_width : ℚ) / (r.ref_width : ℚ)
    let scaleY : ℚ := (screen_height : ℚ) / (r.ref_height : ℚ)
    some (pyTruncToInt ((r.x : ℚ) * scaleX), pyTruncToInt ((r.y : ℚ) * scaleY),
          pyTruncToInt ((r.width : ℚ) * scaleX), pyTruncToInt ((r.height : ℚ) * scaleY))

/-- `ScreenContext` from `src/ed_auto_mission/core/types.py` (lines 40-47). -/
structure ScreenContext where
  width : Int
  height : Int
  ref_width : Int := 3840
  ref_height : Int := 2160
deriving DecidableEq

/-- `ScreenContext.scale_region` (lines 57-59). -/
def ScreenContext.scale_region (c : ScreenContext) (region : ScreenRegion) :
    Option (Int × Int × Int × Int) :=
  region.scaled c.width c.height

/-! ## Game interaction model

`MissionRunner` talks to the game through the `GameInteraction` protocol
(`src/ed_auto_mission/core/types.py`, lines 108-148).  The environment is
modelled deterministically: a static mission board mapping each category
to the list of mission texts seen before `at_bottom()` turns true, and a
static wing-check outcome.  The game-visible side effects the claims talk
about (accepting a mission, returning to starport, ...) are recorded in an
event log. -/

/-- One call into the game, as recorded in the event log. -/
inductive Event where
  | openBoard
  | navigate (category : List Char)
  | accept
  | next
  | returnCats
  | starport
deriving DecidableEq

/-- Deterministic model of the game environment. -/
structure GameModel where
  board : List Char → List (List Char)
  wingCheck : Option Bool

/-- Mutable state threaded through a run: the remaining mission texts of
the currently open category, the number of stop-callback checks made so
far, and the log of game calls. -/
structure GameState where
  current : List (List Char)
  ticks : Nat
  log : List Event
deriving DecidableEq

/-- `game.open_missions_board()`. -/
def gOpenBoard (s : GameState) : GameState := { s with log := s.log ++ [.openBoard] }

/-- `game.navigate_to_category(category)`: opens that category's list. -/
def gNavigate (g : GameModel) (category : List Char) (s : GameState) : GameState :=
  { s with current := g.board category, log := s.log ++ [.navigate category] }

/-- `game.at_bottom()`: true once the current list is exhausted. -/
def gAtBottom (s : GameState) : Bool := s.current.isEmpty

/-- `game.ocr_mission()`: the currently highlighted mission's text. -/
def gOcrMission (s : GameState) : List Char := s.current.headD []

/-- `game.next_mission()`. -/
def gNextMission (s : GameState) : GameState :=
  { s with current := s.current.tail, log := s.log ++ [.next] }

/-- `game.accept_mission()`. -/
def gAccept (s : GameState) : GameState := { s with log := s.log ++ [.accept] }

/-- `game.return_to_categories()`. -/
def gReturnCats (s : GameState) : GameState := { s with log := s.log ++ [.returnCats] }

/-- `game.return_to_starport()`. -/
def gStarport (s : GameState) : GameState := { s with log := s.log ++ [.starport] }

/-- `RunnerConfig` from `src/ed_auto_mission/core/types.py` (lines 97-105). -/
structure RunnerConfig where
  max_missions : Nat := 20
  poll_interval_minutes : Int := 10
  poll_offset_minutes : Int := 5
  loop_sleep_seconds : Nat := 20
  dry_run : Bool := false

/-- A `MissionRunner` instance (`src/ed_auto_mission/core/mission_runner.py`,
lines 17-28): the game, the registry contents, the config, and the stop
callback.  The callback is modelled as a function of how many times it has
been consulted. -/
structure Runner where
  g : GameModel
  rules : List MissionRule
  config : RunnerConfig
  stop : Nat → Bool

/-- One call of `self._should_stop()`, advancing the tick counter. -/
def checkStop (R : Runner) (s : GameState) : Bool × GameState :=
  (R.stop s.ticks, { s with ticks := s.ticks + 1 })

/-- `MissionRunner._accept_matching_missions` from
`src/ed_auto_mission/core/mission_runner.py` (lines 30-45): extract the
credit value once, then for each rule of the category that
`_should_accept_mission` approves, call `accept_mission` (unless
`dry_run`) and count one acceptance. -/
def acceptMatchingMissions (R : Runner) (text category : List Char) (s : GameState) :
    Nat × GameState :=
  let credit := extractCreditValue text
  (getRulesForCategory R.rules category).foldl
    (fun p rule =>
      if shouldAcceptMission R.g.wingCheck rule text credit then
        (p.1 + 1, if R.config.dry_run then p.2 else gAccept p.2)
      else p)
    (0, s)

/-- Outcome of a runner entry point: a value, a propagated
`InterruptedError` (with the state at propagation), or exhausted fuel
(the while loop did not terminate within `fuel` iterations). -/
inductive RunResult (α : Type) where
  | ok (val : α)
  | interrupted (s : GameState)
  | fuelOut
deriving DecidableEq

/-- The `while not self.game.at_bottom()` loop of
`MissionRunner._scan_category` (lines 119-131): check the stop callback
(raising `InterruptedError` when it fires), OCR the mission, accept
matching rules, and move on (`next_mission` is skipped under `dry_run`). -/
def scanLoop (R : Runner) (category : List Char) :
    Nat → Nat → GameState → RunResult (Nat × GameState)
  | 0, _, _ => .fuelOut
  | fuel + 1, acc, s =>
    if gAtBottom s then .ok (acc, s)
    else
      let p := checkStop R s
      if p.1 then .interrupted p.2
      else
        let text := gOcrMission p.2
        let q := acceptMatchingMissions R text category p.2
        let s2 := if R.config.dry_run then q.2 else gNextMission q.2
        scanLoop R category fuel (acc + q.1) s2

/-- `MissionRunner._scan_category` (lines 110-131): navigate to the
category (skipped under `dry_run`) and run the scan loop. -/
def scanCategory (R : Runner) (category : List Char) (fuel : Nat) (s : GameState) :
    RunResult (Nat × GameState) :=
  let s1 := if R.config.dry_run then s else gNavigate R.g category s
  scanLoop R category fuel 0 s1

/-- The `for i, category in enumerate(categories)` loop of
`MissionRunner.run_once` (lines 149-160): check the stop callback, scan
the category, and return to the category list unless this was the last
category (or `dry_run`). -/
def runCategories (R : Runner) (fuel : Nat) :
    List (List Char) → Nat → GameState → RunResult (Nat × GameState)
  | [], acc, s => .ok (acc, s)
  | c :: rest, acc, s =>
    let p := checkStop R s
    if p.1 then .interrupted p.2
    else
      match scanCategory R c fuel p.2 with
      | .fuelOut => .fuelOut
      | .interrupted s2 => .interrupted s2
      | .ok (n, s2) =>
        let s3 :=
          if rest.isEmpty then s2
          else if R.config.dry_run then s2 else gReturnCats s2
        runCategories R fuel rest (acc + n) s3

/-- `MissionRunner.run_once` (lines 133-174): return 0 when the registry
yields no categories; otherwise open the board, scan every category, and
return to starport — also (exactly once, before re-raising) when an
`InterruptedError` escapes the loop.  `dry_run` skips every game call. -/
def runOnce (R : Runner) (fuel : Nat) (s : GameState) : RunResult (Nat × GameState) :=
  let categories := getUniqueCategories R.rules
  if categories.isEmpty then .ok (0, s)
  else
    let s1 := if R.config.dry_run then s else gOpenBoard s
    match runCategories R fuel categories 0 s1 with
    | .fuelOut => .fuelOut
    | .interrupted s2 => .interrupted (if R.config.dry_run then s2 else gStarport s2)
    | .ok (n, s2) => .ok (n, if R.config.dry_run then s2 else gStarport s2)

/-- The `while total_missions < self.config.max_missions` loop of
`MissionRunner.run_until_full` (lines 190-215).  `minute i` models
`localtime()[4]` as read at loop iteration `i`; Python `%` on a positive
modulus agrees with `Int.emod`.  The result also carries the iteration
index at which the loop exited. -/
def pollLoop (R : Runner) (minute : Nat → Int) (scanFuel : Nat) :
    Nat → Nat → Nat → GameState → RunResult (Nat × Nat × GameState)
  | 0, _, _, _ => .fuelOut
  | fuel + 1, iter, total, s =>
    if total < R.config.max_missions then
      let p := checkStop R s
      if p.1 then .ok (total, iter, p.2)
      else
        let pollCheck := (minute iter + R.config.poll_offset_minutes) %
          R.config.poll_interval_minutes
        if pollCheck = 0 then
          match runOnce R scanFuel p.2 with
          | .fuelOut => .fuelOut
          | .interrupted s2 => .interrupted s2
          | .ok (n, s2) => pollLoop R minute scanFuel fuel (iter + 1) (total + n) s2
        else pollLoop R minute scanFuel fuel (iter + 1) total p.2
    else .ok (total, iter, s)

/-- `MissionRunner.run_until_full` (lines 176-218): run `run_once`
immediately, return early when the stop callback fires, then poll. -/
def runUntilFull (R : Runner) (minute : Nat → Int) (scanFuel loopFuel : Nat)
    (existing : Nat) (s : GameState) : RunResult (Nat × Nat × GameState) :=
  match runOnce R scanFuel s with
  | .fuelOut => .fuelOut
  | .interrupted s1 => .interrupted s1
  | .ok (n, s1) =>
    let total := existing + n
    let p := checkStop R s1
    if p.1 then .ok (total, 0, p.2)
    else pollLoop R minute scanFuel loopFuel 0 total p.2

/-! ## Specification-side counting functions -/

/-- Number of rules of `category` that accept mission text `text`
(wing outcome `wc`), with the credit value extracted from the text. -/
def acceptCountForText (wc : Option Bool) (rules : List MissionRule)
    (category text : List Char) : Nat :=
  ((getRulesForCategory rules category).filter
    (fun r => shouldAcceptMission wc r text (extractCreditValue text))).length

/-- Total acceptances a full scan of `category` should perform. -/
def expectedScanCount (g : GameModel) (rules : List MissionRule)
    (category : List Char) : Nat :=
  ((g.board category).map (acceptCountForText g.wingCheck rules category)).sum

/-- Total acceptances one `run_once` scan should perform. -/
def expectedTotal (R : Runner) : Nat :=
  ((getUniqueCategories R.rules).map (expectedScanCount R.g R.rules)).sum

/-- Enough fuel for every category's scan loop to reach the bottom. -/
def scanFuelOK (fuel : Nat) (R : Runner) : Prop :=
  ∀ c ∈ getUniqueCategories R.rules, (R.g.board c).length < fuel

/-- Number of `i` in `[a, a + k)` with `A i`. -/
def countIn (A : Nat → Bool) (a : Nat) : Nat → Nat
  | 0 => 0
  | k + 1 => (if A a then 1 else 0) + countIn A (a + 1) k

/-- The wall-clock alignment test of the polling loop at iteration `i`. -/
def alignedAt (R : Runner) (minute : Nat → Int) (i : Nat) : Bool :=
  (minute i + R.config.poll_offset_minutes) % R.config.poll_interval_minutes = 0

/-! ## Theorems -/

/-- Spec-side description of what `MissionRegistry.remove` matches: the
given `MissionRule` itself, or a rule whose label equals the given
string. -/
def RemoveHitP (target : RemoveArg) (r : MissionRule) : Prop :=
  match target with
  | .inl rule => r = rule
  | .inr label => r.label = label

/-- `"CR"` occurs in `u` at index `i`. -/
def crAt (u : List Char) (i : Nat) : Prop := ['C', 'R'] <+: u.drop i

instance instDecidableCrAt (u : List Char) (i : Nat) : Decidable (crAt u i) :=
  inferInstanceAs (Decidable (['C', 'R'] <+: u.drop i))

/-- A concrete rule, game and runner used to instantiate theorems. -/
def demoRule : MissionRule :=
  { needles := [[['G', 'O', 'L', 'D']]], label := ['G'], wing := false, value := 100,
    categories := [['t']] }

def demoGame : GameModel :=
  { board := fun _ => ["GOLD 500CR".toList], wingCheck := some true }

def demoRunner : Runner :=
  { g := demoGame, rules := [demoRule], config := {}, stop := fun _ => false }

def state0 : GameState := { current := [], ticks := 0, log := [] }

def demoConfigC6 : RunnerConfig :=
  { max_missions := 2, poll_interval_minutes := 1, poll_offset_minutes := 0,
    loop_sleep_seconds := 0, dry_run := false }

def demoRunnerC6 : Runner :=
  { g := demoGame, rules := [demoRule], config := demoConfigC6, stop := fun _ => false }

def demoMinute : Nat → Int := fun _ => 0

/-- Whether a runner entry point propagated an `InterruptedError`. -/
def RunResult.isInterrupted {α : Type} : RunResult α → Bool
  | .interrupted _ => true
  | _ => false

def demoRunnerC7 : Runner :=
  { g := demoGame, rules := [demoRule], config := {}, stop := fun _ => true }

end EDAM

namespace EDAM.Legacy

/-! ## Legacy modules (`src/mission_registry.py`, `src/mission_runner.py`) -/

/-- Legacy `MissionRule` from `src/mission_registry.py` (lines 10-39),
which has no `categories` field. -/
structure MissionRule where
  needles : List (List (List Char))
  label : List Char
  wing : Bool := false
  value : Int := 0
deriving DecidableEq

/-- Legacy `MissionRule.matches` from `src/mission_registry.py`
(lines 26-35). -/
def MissionRule.matches (r : MissionRule) (text : List Char) : Bool :=
  let upperText := pyUpper text
  r.needles.all (fun group => group.any (fun needle => pyContains upperText (pyUpper needle)))

/-- Legacy `MissionRunner._extract_credit_value` from
`src/mission_runner.py` (lines 83-109). -/
def extractCreditValue (text : List Char) : Option Nat :=
  match findCR (pyUpper text) with
  | none => none
  | some idx =>
    let digits := (text.take idx).reverse.takeWhile isDigitOrComma
    if digits = [] then none
    else
      let numStr := digits.reverse.filter (fun c => c ≠ ',')
      if numStr = [] then none
      else some (parseDigits numStr)

end EDAM.Legacy

namespace EDAM

/-! ## Theorems -/

/-- C1: `MissionRule.matches(text)` returns `True` iff for every needle
group at least one needle of the group is, after uppercasing both needle
and text, a substring of the text (AND across groups, OR within each
group); a rule with an empty needles list matches every text, and a rule
containing an empty group matches no text. -/
theorem C1_matches_characterization (r : MissionRule) (text : List Char) :
    (r.matches text = true ↔
      ∀ g ∈ r.needles, ∃ n ∈ g, pyUpper n <:+: pyUpper text) ∧
    (r.needles = [] → r.matches text = true) ∧
    (([] : List (List Char)) ∈ r.needles → r.matches text = false) := by
  have hiff : r.matches text = true ↔
      ∀ g ∈ r.needles, ∃ n ∈ g, pyUpper n <:+: pyUpper text := by
    simp [MissionRule.matches, pyContains]
  refine ⟨hiff, ?_, ?_⟩
  · intro h
    rw [hiff, h]
    simp
  · intro h
    rcases Bool.eq_false_or_eq_true (r.matches text) with ht | hf
    · exfalso
      rcases hiff.mp ht [] h with ⟨n, hn, -⟩
      simp at hn
    · exact hf

/-- Witness for C1 at concrete inputs: the empty needles list matches,
and a rule containing an empty group does not. -/
theorem C1_matches_characterization_witness :
    (MissionRule.mk [] ['A'] false 0 []).matches ['X'] = true ∧
    (MissionRule.mk [[]] ['A'] false 0 []).matches ['X'] = false :=
  ⟨(C1_matches_characterization (MissionRule.mk [] ['A'] false 0 []) ['X']).2.1 rfl,
   (C1_matches_characterization (MissionRule.mk [[]] ['A'] false 0 []) ['X']).2.2 (by simp)⟩

/-- C3: `_should_accept_mission` returns `True` iff the rule matches the
text, the extracted credit value exists and strictly exceeds the rule's
value threshold, and, for `wing` rules, the game's wing check returns
`True` (a `NotImplementedError`, modelled as `none`, counts as
rejection). -/
theorem C3_shouldAccept_iff (wc : Option Bool) (rule : MissionRule) (text : List Char) :
    shouldAcceptMission wc rule text (extractCreditValue text) = true ↔
      rule.matches text = true ∧
      (∃ c, extractCreditValue text = some c ∧ rule.value < (c : Int)) ∧
      (rule.wing = true → wc = some true) := by
  unfold shouldAcceptMission
  cases hm : rule.matches text
  · simp [hm]
  · cases hwing : rule.wing
    · rcases hc : extractCreditValue text with - | c
      · simp [hc]
      · by_cases hcv : (c : Int) ≤ rule.value <;> simp [hc, hcv] <;> omega
    · rcases hwc : wc with - | b
      · simp
      · cases b
        · simp
        · rcases hc : extractCreditValue text with - | c
          · simp [hc]
          · by_cases hcv : (c : Int) ≤ rule.value <;> simp [hc, hcv] <;> omega

/-- Witness for C3 at a concrete wing rule, text and wing-check outcome. -/
theorem C3_shouldAccept_iff_witness :
    shouldAcceptMission (some true)
      (MissionRule.mk [[['G','O','L','D']]] ['G'] true 100 []) ("GOLD 500CR".toList)
      (extractCreditValue ("GOLD 500CR".toList)) = true :=
  (C3_shouldAccept_iff (some true)
    (MissionRule.mk [[['G','O','L','D']]] ['G'] true 100 []) ("GOLD 500CR".toList)).mpr
    ⟨by decide, ⟨500, by decide, by decide⟩, fun _ => rfl⟩

/-- C8: the legacy `MissionRule.matches` (`src/mission_registry.py`) and
the new one (`src/ed_auto_mission/core/types.py`) agree on every rule
contents and text, and the legacy `_extract_credit_value`
(`src/mission_runner.py`) and the new one agree on every input string. -/
theorem C8_legacy_agrees :
    (∀ (needles : List (List (List Char))) (label : List Char) (wing : Bool) (value : Int)
        (categories : List (List Char)) (text : List Char),
      (Legacy.MissionRule.mk needles label wing value).matches text =
        (MissionRule.mk needles label wing value categories).matches text) ∧
    (∀ text : List Char, Legacy.extractCreditValue text = extractCreditValue text) :=
  ⟨fun _ _ _ _ _ _ => rfl, fun _ => rfl⟩

theorem pyTruncToInt_intCast (n : Int) : pyTruncToInt (n : ℚ) = n := by
  unfold pyTruncToInt
  split <;> simp

/-- C9 counterexample: a `ScreenRegion` whose reference dimensions are
zero makes `scaled` fail (Python raises `ZeroDivisionError`, modelled as
`none`) instead of returning the region's own coordinates. -/
theorem C9_scaling_counterexample :
    (ScreenRegion.mk 1 1 1 1 0 0).scaled 0 0 ≠ some (1, 1, 1, 1) := by decide

/-- C9 amended: provided the reference dimensions are non-zero, scaling
is the identity at the reference resolution (the integer fields being in
the exactly-representable double range), and `ScreenContext.scale_region`
agrees with `ScreenRegion.scaled` for every context. -/
theorem C9_scaling_identity (r : ScreenRegion)
    (hw : r.ref_width ≠ 0) (hh : r.ref_height ≠ 0)
    (hx : r.x.natAbs ≤ 2 ^ 53) (hy : r.y.natAbs ≤ 2 ^ 53)
    (hwd : r.width.natAbs ≤ 2 ^ 53) (hht : r.height.natAbs ≤ 2 ^ 53) :
    r.scaled r.ref_width r.ref_height = some (r.x, r.y, r.width, r.height) ∧
    ∀ c : ScreenContext, c.scale_region r = r.scaled c.width c.height := by
  constructor
  · unfold ScreenRegion.scaled
    rw [if_neg (not_or.mpr ⟨hw, hh⟩)]
    have hwq : ((r.ref_width : ℚ)) ≠ 0 := Int.cast_ne_zero.mpr hw
    have hhq : ((r.ref_height : ℚ)) ≠ 0 := Int.cast_ne_zero.mpr hh
    simp [div_self hwq, div_self hhq, pyTruncToInt_intCast]
  · intro c
    rfl

/-- Witness for C9 at a concrete region and the reference resolution. -/
theorem C9_scaling_identity_witness :
    (ScreenRegion.mk 10 20 30 40 3840 2160).scaled 3840 2160 = some (10, 20, 30, 40) :=
  (C9_scaling_identity (ScreenRegion.mk 10 20 30 40 3840 2160)
    (by decide) (by decide) (by decide) (by decide) (by decide) (by decide)).1

theorem removeHit_eq_true_iff (target : RemoveArg) (r : MissionRule) :
    removeHit target r = true ↔ RemoveHitP target r := by
  cases target <;> simp [removeHit, RemoveHitP]

/-- C10: `MissionRegistry.remove` removes at most one rule, returns
`True` iff a rule was removed — the first rule equal to the given
`MissionRule`, or the first rule whose label equals the given string —
and leaves the registry unchanged when it returns `False`. -/
theorem C10_remove_spec (target : RemoveArg) (st : List MissionRule) :
    ((registryRemove target st).2.length = st.length ∨
      (registryRemove target st).2.length + 1 = st.length) ∧
    ((registryRemove target st).1 = true ↔ ∃ r ∈ st, RemoveHitP target r) ∧
    ((registryRemove target st).1 = true →
      ∃ pre r post, st = pre ++ r :: post ∧ RemoveHitP target r ∧
        (∀ x ∈ pre, ¬ RemoveHitP target x) ∧ (registryRemove target st).2 = pre ++ post) ∧
    ((registryRemove target st).1 = false → (registryRemove target st).2 = st) := by
  induction st with
  | nil => simp [registryRemove]
  | cons a l ih =>
    by_cases h : removeHit target a = true
    · have ha : RemoveHitP target a := (removeHit_eq_true_iff target a).mp h
      have hstep : registryRemove target (a :: l) = (true, l) := by
        simp [registryRemove, h]
      rw [hstep]
      refine ⟨by simp, ?_, ?_, by simp⟩
      · exact iff_of_true rfl ⟨a, List.mem_cons_self a l, ha⟩
      · intro _
        exact ⟨[], a, l, rfl, ha, by simp, rfl⟩
    · have hna : ¬ RemoveHitP target a := fun hp =>
        h ((removeHit_eq_true_iff target a).mpr hp)
      have hstep : registryRemove target (a :: l) =
          ((registryRemove target l).1, a :: (registryRemove target l).2) := by
        simp [registryRemove, h]
      obtain ⟨ihlen, ihiff, ihdec, ihunch⟩ := ih
      rw [hstep]
      refine ⟨?_, ?_, ?_, ?_⟩
      · simp only [List.length_cons]
        omega
      · simp only [ihiff]
        constructor
        · rintro ⟨r, hr, hphit⟩
          exact ⟨r, List.mem_cons_of_mem a hr, hphit⟩
        · rintro ⟨r, hr, hphit⟩
          rcases List.mem_cons.mp hr with rfl | hr'
          · exact absurd hphit hna
          · exact ⟨r, hr', hphit⟩
      · intro htrue
        rcases ihdec htrue with ⟨pre, r, post, hst, hphit, hpre, hres⟩
        refine ⟨a :: pre, r, post, by rw [List.cons_append, hst], hphit, ?_,
          by rw [List.cons_append, hres]⟩
        intro x hx
        rcases List.mem_cons.mp hx with rfl | hx'
        · exact hna
        · exact hpre x hx'
      · intro hfalse
        rw [ihunch hfalse]

/-- Witness for C10: removing an absent label leaves a concrete registry
unchanged. -/
theorem C10_remove_spec_witness :
    (registryRemove (Sum.inr ['Z']) [MissionRule.mk [] ['A'] false 0 []]).2 =
      [MissionRule.mk [] ['A'] false 0 []] :=
  (C10_remove_spec (Sum.inr ['Z']) [MissionRule.mk [] ['A'] false 0 []]).2.2.2 (by decide)

theorem registryRemove_mem_subset (target : RemoveArg) (st : List MissionRule) :
    ∀ r ∈ (registryRemove target st).2, r ∈ st := by
  induction st with
  | nil => simp [registryRemove]
  | cons a l ih =>
    by_cases h : removeHit target a = true <;> simp only [registryRemove, h, if_true, if_false]
    · intro r hr
      exact List.mem_cons_of_mem a hr
    · intro r hr
      rcases List.mem_cons.mp hr with rfl | hr'
      · exact List.mem_cons_self r l
      · exact List.mem_cons_of_mem a (ih r hr')

/-- C4 counterexample: the registry performs no validation, so a state
holding a rule with an empty needle group is reachable through the
public operations (here via `add`). -/
theorem C4_invariant_counterexample :
    RegistryReachable [MissionRule.mk [[]] ['B'] false 0 []] ∧
    ¬ (∀ r ∈ [MissionRule.mk [[]] ['B'] false 0 []], r.validGroups) := by
  constructor
  · have h := RegistryReachable.add [] [[]] ['B'] false 0 none (RegistryReachable.init [])
    simpa [registryAdd, registryInit, pyStrip] using h
  · intro h
    exact h (MissionRule.mk [[]] ['B'] false 0 []) (by simp) [] (by simp) rfl

/-- C4 amended: the registry never alters rule contents, so provided
every rule handed to `__init__`, `add`, `add_rule` and `add_many` has
only non-empty needle groups, every reachable state satisfies the
invariant that all stored needle groups are non-empty. -/
theorem C4_valid_invariant (st : List MissionRule) (h : RegistryReachableValid st) :
    ∀ r ∈ st, r.validGroups := by
  induction h with
  | init missions hm => exact hm
  | add st needles label wing value categories hg _ ih =>
    intro r hr
    rcases List.mem_append.mp hr with hr' | hr'
    · exact ih r hr'
    · rcases List.mem_singleton.mp hr' with rfl
      exact hg
  | addRule st rule hg _ ih =>
    intro r hr
    rcases List.mem_append.mp hr with hr' | hr'
    · exact ih r hr'
    · rcases List.mem_singleton.mp hr' with rfl
      exact hg
  | addMany st missions hm _ ih =>
    intro r hr
    rcases List.mem_append.mp hr with hr' | hr'
    · exact ih r hr'
    · exact hm r hr'
  | remove st target _ ih =>
    intro r hr
    exact ih r (registryRemove_mem_subset target st r hr)
  | clear st _ _ =>
    intro r hr
    simp [registryClear] at hr

/-- Witness for C4's amended invariant at a concrete valid history. -/
theorem C4_valid_invariant_witness : ([['M']] : List (List Char)) ≠ [] :=
  C4_valid_invariant [MissionRule.mk [[['M']]] ['A'] false 0 []]
    (RegistryReachableValid.init [MissionRule.mk [[['M']]] ['A'] false 0 []]
      (by
        intro r hr
        rcases List.mem_singleton.mp hr with rfl
        intro g hg
        rcases List.mem_singleton.mp hg with rfl
        simp))
    (MissionRule.mk [[['M']]] ['A'] false 0 []) (by simp) [['M']] (by simp)

theorem findCR_sound : ∀ (u : List Char) (i : Nat), findCR u = some i → crAt u i := by
  intro u
  induction u with
  | nil =>
    intro i h
    simp [findCR] at h
  | cons c rest ih =>
    intro i h
    by_cases hp : ['C', 'R'] <+: c :: rest
    · simp only [findCR, if_pos hp] at h
      cases h
      exact hp
    · simp only [findCR, if_neg hp, Option.map_eq_some'] at h
      rcases h with ⟨j, hj, rfl⟩
      exact ih j hj

theorem findCR_complete : ∀ (u : List Char) (i : Nat), crAt u i → ∃ j, j ≤ i ∧ findCR u = some j := by
  intro u
  induction u with
  | nil =>
    intro i h
    unfold crAt at h
    simp at h
  | cons c rest ih =>
    intro i h
    by_cases hp : ['C', 'R'] <+: c :: rest
    · exact ⟨0, Nat.zero_le i, by simp [findCR, hp]⟩
    · cases i with
      | zero => exact absurd h hp
      | succ i' =>
        rcases ih i' h with ⟨j, hj, hfind⟩
        exact ⟨j + 1, Nat.succ_le_succ hj, by simp [findCR, hp, hfind]⟩

theorem takeWhile_append_all {p : Char → Bool} :
    ∀ (a b : List Char), (∀ c ∈ a, p c = true) →
      (a ++ b).takeWhile p = a ++ b.takeWhile p := by
  intro a
  induction a with
  | nil => simp
  | cons x t ih =>
    intro b h
    rw [List.cons_append, List.takeWhile_cons, if_pos (h x (List.mem_cons_self x t)),
      ih b (fun c hc => h c (List.mem_cons_of_mem x hc)), List.cons_append]

theorem takeWhile_reverse_split {p : Char → Bool} (pre run : List Char)
    (hall : ∀ c ∈ run, p c = true)
    (hlast : ∀ c, pre.getLast? = some c → p c = false) :
    ((pre ++ run).reverse).takeWhile p = run.reverse := by
  rw [List.reverse_append,
    takeWhile_append_all run.reverse pre.reverse (fun c hc => hall c (List.mem_reverse.mp hc))]
  suffices h : pre.reverse.takeWhile p = [] by rw [h, List.append_nil]
  cases hrev : pre.reverse with
  | nil => simp
  | cons x t =>
    have hx : pre.getLast? = some x := by
      rw [← List.head?_reverse, hrev]
      rfl
    rw [List.takeWhile_cons, if_neg (by simp [hlast x hx])]

theorem filter_ne_comma_eq_nil_iff (run : List Char)
    (hall : ∀ c ∈ run, isDigitOrComma c = true) :
    run.filter (fun c => c ≠ ',') = [] ↔ run.any Char.isDigit = false := by
  rw [List.filter_eq_nil_iff, List.any_eq_false]
  constructor
  · intro h c hc
    have hcomma : c = ',' := by
      have := h c hc
      simpa using this
    rw [hcomma]
    decide
  · intro h c hc
    have hdc := hall c hc
    have hnd := h c hc
    simp only [isDigitOrComma, Bool.or_eq_true, beq_iff_eq] at hdc
    rcases hdc with hd | hcm
    · exact absurd hd hnd
    · simp [hcm]

/-- C2: `_extract_credit_value` locates the first occurrence of `"CR"` in
the uppercased text, collects the maximal contiguous run of digit/comma
characters immediately preceding it, returns `None` when `"CR"` is
absent, when no digit or comma immediately precedes it, or when the run
contains no digit, and otherwise returns the integer obtained by
reversing the collected run and deleting the commas. -/
theorem C2_extract_characterization (text : List Char) :
    ((∀ i, ¬ crAt (pyUpper text) i) → extractCreditValue text = none) ∧
    (∀ i, crAt (pyUpper text) i → (∀ j, j < i → ¬ crAt (pyUpper text) j) →
      ∀ pre run, text.take i = pre ++ run →
        (∀ c ∈ run, isDigitOrComma c = true) →
        (∀ c, pre.getLast? = some c → isDigitOrComma c = false) →
        extractCreditValue text =
          if run.any Char.isDigit then some (parseDigits (run.filter (fun c => c ≠ ',')))
          else none) := by
  constructor
  · intro hno
    unfold extractCreditValue
    cases hf : findCR (pyUpper text) with
    | none => rfl
    | some i => exact absurd (findCR_sound _ i hf) (hno i)
  · intro i hi hmin pre run hsplit hall hlast
    have hfind : findCR (pyUpper text) = some i := by
      rcases findCR_complete _ i hi with ⟨j, hj, hf⟩
      rcases Nat.lt_or_ge j i with hlt | hge
      · exact absurd (findCR_sound _ j hf) (hmin j hlt)
      · rwa [Nat.le_antisymm hj hge] at hf
    have hdig : (text.take i).reverse.takeWhile isDigitOrComma = run.reverse := by
      rw [hsplit]
      exact takeWhile_reverse_split pre run hall hlast
    unfold extractCreditValue
    rw [hfind]
    simp only [hdig, List.reverse_reverse]
    rcases hrun : run with - | ⟨r, t⟩
    · simp
    · rw [← hrun]
      have hrev : run.reverse ≠ [] := by
        simp [hrun]
      rw [if_neg hrev]
      by_cases hany : run.any Char.isDigit = true
      · rw [if_pos hany]
        have hne : run.filter (fun c => c ≠ ',') ≠ [] := by
          intro hnil
          rw [(filter_ne_comma_eq_nil_iff run hall).mp hnil] at hany
          cases hany
        rw [if_neg hne]
      · rw [if_neg hany]
        have hnil : run.filter (fun c => c ≠ ',') = [] :=
          (filter_ne_comma_eq_nil_iff run hall).mpr (Bool.not_eq_true _ ▸ Bool.of_not_eq_true hany)
        rw [if_pos hnil]

/-- Witness for C2 at a concrete mission text with a comma-separated
credit value directly preceding `"CR"`. -/
theorem C2_extract_characterization_witness :
    extractCreditValue ("A 1,250CR fee".toList) = some 1250 := by
  have h := (C2_extract_characterization ("A 1,250CR fee".toList)).2 7
    (by decide) (by decide) ['A', ' '] ("1,250".toList) (by decide) (by decide)
    (by
      intro c hc
      rw [show ((['A', ' '] : List Char).getLast?) = some ' ' from rfl] at hc
      cases hc
      decide)
  rw [h]
  decide

theorem amm_fold (R : Runner) (text : List Char) (credit : Option Nat) :
    ∀ (rules : List MissionRule) (k : Nat) (s : GameState),
      rules.foldl (fun p rule =>
          if shouldAcceptMission R.g.wingCheck rule text credit then
            (p.1 + 1, if R.config.dry_run then p.2 else gAccept p.2)
          else p) (k, s) =
        (k + (rules.filter (fun r => shouldAcceptMission R.g.wingCheck r text credit)).length,
         { s with log := s.log ++ (if R.config.dry_run then [] else
            List.replicate
              (rules.filter (fun r => shouldAcceptMission R.g.wingCheck r text credit)).length
              Event.accept) }) := by
  intro rules
  induction rules with
  | nil =>
    intro k s
    simp only [List.foldl_nil, List.filter_nil, List.length_nil, Nat.add_zero,
      List.replicate_zero]
    cases hd : R.config.dry_run <;> simp
  | cons r rs ih =>
    intro k s
    by_cases hacc : shouldAcceptMission R.g.wingCheck r text credit = true
    · rw [List.foldl_cons]
      simp only [hacc, if_true]
      rw [ih (k + 1) (if R.config.dry_run then s else gAccept s)]
      simp only [List.filter_cons, hacc, if_true, List.length_cons]
      have harith : k + 1 +
          (List.filter (fun r => shouldAcceptMission R.g.wingCheck r text credit) rs).length =
          k + ((List.filter (fun r => shouldAcceptMission R.g.wingCheck r text credit) rs).length
            + 1) := by omega
      cases hd : R.config.dry_run
      · simp [hd, gAccept, List.replicate_succ, harith, List.append_assoc]
      · simp [hd, harith]
    · rw [List.foldl_cons]
      simp only [hacc, if_false, Bool.false_eq_true]
      rw [ih k s]
      simp [List.filter_cons, hacc]

theorem acceptMatchingMissions_eq (R : Runner) (text category : List Char) (s : GameState) :
    acceptMatchingMissions R text category s =
      (acceptCountForText R.g.wingCheck R.rules category text,
       { s with log := s.log ++ (if R.config.dry_run then [] else
          List.replicate (acceptCountForText R.g.wingCheck R.rules category text)
            Event.accept) }) := by
  unfold acceptMatchingMissions acceptCountForText
  rw [amm_fold R text (extractCreditValue text) (getRulesForCategory R.rules category) 0 s]
  simp

theorem scanLoop_ok (R : Runner) (category : List Char)
    (hstop : ∀ n, R.stop n = false) (hdry : R.config.dry_run = false) :
    ∀ (fuel : Nat) (s : GameState) (acc : Nat), s.current.length < fuel →
      ∃ s3, scanLoop R category fuel acc s =
          .ok (acc + (s.current.map (acceptCountForText R.g.wingCheck R.rules category)).sum, s3) ∧
        s3.log.count Event.accept = s.log.count Event.accept +
          (s.current.map (acceptCountForText R.g.wingCheck R.rules category)).sum := by
  intro fuel
  induction fuel with
  | zero =>
    intro s acc h
    exact absurd h (Nat.not_lt_zero _)
  | succ fuel ih =>
    intro s acc h
    rcases hcur : s.current with - | ⟨t, rest⟩
    · refine ⟨s, ?_, ?_⟩
      · simp [scanLoop, gAtBottom, hcur]
      · simp [hcur]
    · have hlen : rest.length < fuel := by
        rw [hcur] at h
        simpa using Nat.lt_of_succ_lt_succ h
      obtain ⟨s3, hrun, hcount⟩ := ih
        { current := rest, ticks := s.ticks + 1,
          log := (s.log ++ List.replicate (acceptCountForText R.g.wingCheck R.rules category t)
            Event.accept) ++ [Event.next] }
        (acc + acceptCountForText R.g.wingCheck R.rules category t)
        hlen
      have hstep : scanLoop R category (fuel + 1) acc s =
          scanLoop R category fuel
            (acc + acceptCountForText R.g.wingCheck R.rules category t)
            { current := rest, ticks := s.ticks + 1,
              log := (s.log ++ List.replicate
                (acceptCountForText R.g.wingCheck R.rules category t) Event.accept)
                ++ [Event.next] } := by
        simp [scanLoop, gAtBottom, hcur, checkStop, hstop, gOcrMission,
          acceptMatchingMissions_eq, hdry, gNextMission]
      refine ⟨s3, ?_, ?_⟩
      · rw [hstep, hrun]
        simp [Nat.add_assoc]
      · rw [hcount]
        simp [List.count_append, List.count_replicate, Nat.add_assoc]

theorem runCategories_ok (R : Runner) (fuel : Nat)
    (hstop : ∀ n, R.stop n = false) (hdry : R.config.dry_run = false) :
    ∀ (cats : List (List Char)) (acc : Nat) (s : GameState),
      (∀ c ∈ cats, (R.g.board c).length < fuel) →
      ∃ s2, runCategories R fuel cats acc s =
          .ok (acc + (cats.map (expectedScanCount R.g R.rules)).sum, s2) ∧
        s2.log.count Event.accept = s.log.count Event.accept +
          (cats.map (expectedScanCount R.g R.rules)).sum := by
  intro cats
  induction cats with
  | nil =>
    intro acc s _
    exact ⟨s, by simp [runCategories], by simp⟩
  | cons c rest ih =>
    intro acc s hfuel
    obtain ⟨s2, hscan, hcount2⟩ := scanLoop_ok R c hstop hdry fuel
      (gNavigate R.g c { s with ticks := s.ticks + 1 }) 0
      (by simpa [gNavigate] using hfuel c (List.mem_cons_self c rest))
    obtain ⟨s4, hrest, hcount4⟩ := ih (acc + expectedScanCount R.g R.rules c)
      (if rest.isEmpty then s2 else gReturnCats s2)
      (fun x hx => hfuel x (List.mem_cons_of_mem c hx))
    have hscan' : scanCategory R c fuel { s with ticks := s.ticks + 1 } =
        .ok (expectedScanCount R.g R.rules c, s2) := by
      unfold scanCategory
      rw [hdry]
      simp only [Bool.false_eq_true, if_false]
      rw [hscan]
      congr 2
      simp [gNavigate, expectedScanCount]
    have hstep : runCategories R fuel (c :: rest) acc s =
        runCategories R fuel rest (acc + expectedScanCount R.g R.rules c)
          (if rest.isEmpty then s2 else gReturnCats s2) := by
      simp only [runCategories, checkStop, hstop, Bool.false_eq_true, if_false, hscan', hdry]
    refine ⟨s4, ?_, ?_⟩
    · rw [hstep, hrest]
      simp [Nat.add_assoc]
    · rw [hcount4]
      have hsw : (if rest.isEmpty then s2 else gReturnCats s2).log.count Event.accept
          = s2.log.count Event.accept := by
        cases rest.isEmpty <;> simp [gReturnCats, List.count_append]
      rw [hsw, hcount2]
      simp [gNavigate, List.count_append, expectedScanCount, Nat.add_assoc]

theorem runOnce_ok (R : Runner) (fuel : Nat)
    (hstop : ∀ n, R.stop n = false) (hdry : R.config.dry_run = false)
    (hfuel : scanFuelOK fuel R) :
    ∀ s, ∃ s2, runOnce R fuel s = .ok (expectedTotal R, s2) ∧
      s2.log.count Event.accept = s.log.count Event.accept + expectedTotal R := by
  intro s
  by_cases hc : (getUniqueCategories R.rules).isEmpty = true
  · have hcats : getUniqueCategories R.rules = [] := List.isEmpty_iff.mp hc
    refine ⟨s, ?_, ?_⟩
    · unfold runOnce
      rw [if_pos hc]
      unfold expectedTotal
      rw [hcats]
      simp
    · unfold expectedTotal
      rw [hcats]
      simp
  · obtain ⟨s2, hcats, hcount⟩ := runCategories_ok R fuel hstop hdry
      (getUniqueCategories R.rules) 0 (gOpenBoard s) hfuel
    refine ⟨gStarport s2, ?_, ?_⟩
    · unfold runOnce
      rw [if_neg hc]
      simp only [hdry, Bool.false_eq_true, if_false, hcats]
      unfold expectedTotal
      simp
    · rw [gStarport, List.count_append, hcount]
      simp [gOpenBoard, List.count_append, expectedTotal]

theorem scanLoop_dry_ok_log (R : Runner) (category : List Char)
    (hdry : R.config.dry_run = true) :
    ∀ (fuel acc : Nat) (s : GameState) (n : Nat) (s2 : GameState),
      scanLoop R category fuel acc s = .ok (n, s2) → s2.log = s.log := by
  intro fuel
  induction fuel with
  | zero =>
    intro acc s n s2 h
    simp [scanLoop] at h
  | succ fuel ih =>
    intro acc s n s2 h
    simp only [scanLoop, checkStop, acceptMatchingMissions_eq, hdry, if_true,
      List.append_nil] at h
    split at h
    · simp only [RunResult.ok.injEq, Prod.mk.injEq] at h
      obtain ⟨-, rfl⟩ := h
      rfl
    · split at h
      · simp at h
      · have h2 := ih _ _ _ _ h
        exact h2

theorem runCategories_dry_ok_log (R : Runner) (fuel : Nat)
    (hdry : R.config.dry_run = true) :
    ∀ (cats : List (List Char)) (acc : Nat) (s : GameState) (n : Nat) (s2 : GameState),
      runCategories R fuel cats acc s = .ok (n, s2) → s2.log = s.log := by
  intro cats
  induction cats with
  | nil =>
    intro acc s n s2 h
    simp only [runCategories, RunResult.ok.injEq, Prod.mk.injEq] at h
    obtain ⟨-, rfl⟩ := h
    rfl
  | cons c rest ih =>
    intro acc s n s2 h
    simp only [runCategories, checkStop, hdry, if_true, ite_self] at h
    by_cases hst : R.stop s.ticks = true
    · rw [if_pos hst] at h
      simp at h
    · rw [if_neg hst] at h
      cases hsc : scanCategory R c fuel ⟨s.current, s.ticks + 1, s.log⟩ with
      | fuelOut =>
        rw [hsc] at h
        simp at h
      | interrupted s3 =>
        rw [hsc] at h
        simp at h
      | ok p =>
        obtain ⟨m, s3⟩ := p
        rw [hsc] at h
        have hlog3 : s3.log = s.log := by
          unfold scanCategory at hsc
          rw [hdry] at hsc
          simp only [if_true] at hsc
          exact scanLoop_dry_ok_log R c hdry fuel 0 ⟨s.current, s.ticks + 1, s.log⟩ m s3 hsc
        have h2 := ih _ _ _ _ h
        rw [h2, hlog3]

theorem runOnce_dry_ok_log (R : Runner) (fuel : Nat) (hdry : R.config.dry_run = true) :
    ∀ (s : GameState) (n : Nat) (s2 : GameState),
      runOnce R fuel s = .ok (n, s2) → s2.log = s.log := by
  intro s n s2 h
  unfold runOnce at h
  by_cases hc : (getUniqueCategories R.rules).isEmpty = true
  · rw [if_pos hc] at h
    simp only [RunResult.ok.injEq, Prod.mk.injEq] at h
    obtain ⟨-, rfl⟩ := h
    rfl
  · rw [if_neg hc, hdry] at h
    simp only [if_true] at h
    cases hrc : runCategories R fuel (getUniqueCategories R.rules) 0 s with
    | fuelOut =>
      rw [hrc] at h
      simp at h
    | interrupted s3 =>
      rw [hrc] at h
      simp at h
    | ok p =>
      obtain ⟨m, s3⟩ := p
      rw [hrc] at h
      simp only [RunResult.ok.injEq, Prod.mk.injEq] at h
      obtain ⟨-, rfl⟩ := h
      exact runCategories_dry_ok_log R fuel hdry _ 0 s m s3 hrc

/-- C5: `run_once` returns the number of acceptances of the scan: 0 when
there are no categories; otherwise, scanning each category's missions in
order, one acceptance per rule of the category that
`_should_accept_mission` approves, with `accept_mission` invoked once per
acceptance — not at all under `dry_run`. -/
theorem C5_runOnce_count (R : Runner) (fuel : Nat) (s : GameState) :
    (getUniqueCategories R.rules = [] → runOnce R fuel s = .ok (0, s)) ∧
    ((∀ n, R.stop n = false) → R.config.dry_run = false → scanFuelOK fuel R →
      ∃ s2, runOnce R fuel s = .ok (expectedTotal R, s2) ∧
        s2.log.count Event.accept = s.log.count Event.accept + expectedTotal R) ∧
    (R.config.dry_run = true →
      ∀ n s2, runOnce R fuel s = .ok (n, s2) → s2.log = s.log) := by
  refine ⟨?_, ?_, ?_⟩
  · intro hcats
    unfold runOnce
    rw [if_pos (by simp [hcats])]
  · intro hstop hdry hfuel
    exact runOnce_ok R fuel hstop hdry hfuel s
  · intro hdry n s2 h
    exact runOnce_dry_ok_log R fuel hdry s n s2 h

/-- Witness for C5 at a concrete runner: one category, one mission text,
one matching rule. -/
theorem C5_runOnce_count_witness :
    ∃ s2, runOnce demoRunner 2 state0 = .ok (expectedTotal demoRunner, s2) ∧
      s2.log.count Event.accept = state0.log.count Event.accept + expectedTotal demoRunner :=
  (C5_runOnce_count demoRunner 2 state0).2.1 (fun _ => rfl) rfl
    (fun c _ => by simp [demoGame, demoRunner])

theorem pollLoop_ok (R : Runner) (minute : Nat → Int) (scanFuel : Nat)
    (hstop : ∀ n, R.stop n = false) (hdry : R.config.dry_run = false)
    (hfuel : scanFuelOK scanFuel R) :
    ∀ (fuel iter total : Nat) (s : GameState) (t itF : Nat) (s2 : GameState),
      pollLoop R minute scanFuel fuel iter total s = .ok (t, itF, s2) →
      ∃ k, itF = iter + k ∧
        t = total + expectedTotal R * countIn (alignedAt R minute) iter k ∧
        R.config.max_missions ≤ t ∧
        ∀ j, j < k → total + expectedTotal R * countIn (alignedAt R minute) iter j <
          R.config.max_missions := by
  intro fuel
  induction fuel with
  | zero =>
    intro iter total s t itF s2 h
    simp [pollLoop] at h
  | succ fuel ih =>
    intro iter total s t itF s2 h
    by_cases hlt : total < R.config.max_missions
    · obtain ⟨sr, hro, -⟩ := runOnce_ok R scanFuel hstop hdry hfuel
        ⟨s.current, s.ticks + 1, s.log⟩
      by_cases hal : alignedAt R minute iter = true
      · have hprop : (minute iter + R.config.poll_offset_minutes) %
            R.config.poll_interval_minutes = 0 := of_decide_eq_true hal
        have hstep : pollLoop R minute scanFuel (fuel + 1) iter total s =
            pollLoop R minute scanFuel fuel (iter + 1) (total + expectedTotal R) sr := by
          simp only [pollLoop, if_pos hlt, checkStop, hstop, Bool.false_eq_true, if_false,
            if_pos hprop, hro]
        rw [hstep] at h
        obtain ⟨k', hit, htot, hmax, hmin⟩ := ih (iter + 1) (total + expectedTotal R) sr
          t itF s2 h
        refine ⟨k' + 1, by omega, ?_, hmax, ?_⟩
        · rw [htot]
          simp only [countIn, hal, if_true, Nat.mul_add, Nat.mul_one]
          omega
        · intro j hj
          cases j with
          | zero =>
            simpa [countIn] using hlt
          | succ j' =>
            have hj' := hmin j' (by omega)
            simp only [countIn, hal, if_true, Nat.mul_add, Nat.mul_one]
            omega
      · have hprop : ¬ ((minute iter + R.config.poll_offset_minutes) %
            R.config.poll_interval_minutes = 0) := by
          intro hp
          exact hal (decide_eq_true hp)
        have hstep : pollLoop R minute scanFuel (fuel + 1) iter total s =
            pollLoop R minute scanFuel fuel (iter + 1) total
              ⟨s.current, s.ticks + 1, s.log⟩ := by
          simp only [pollLoop, if_pos hlt, checkStop, hstop, Bool.false_eq_true, if_false,
            if_neg hprop]
        rw [hstep] at h
        obtain ⟨k', hit, htot, hmax, hmin⟩ := ih (iter + 1) total
          ⟨s.current, s.ticks + 1, s.log⟩ t itF s2 h
        refine ⟨k' + 1, by omega, ?_, hmax, ?_⟩
        · rw [htot]
          simp only [countIn, hal, Bool.false_eq_true, if_false, Nat.zero_add]
        · intro j hj
          cases j with
          | zero =>
            simpa [countIn] using hlt
          | succ j' =>
            have hj' := hmin j' (by omega)
            simp only [countIn, hal, Bool.false_eq_true, if_false, Nat.zero_add]
            omega
    · have hstep : pollLoop R minute scanFuel (fuel + 1) iter total s = .ok (total, iter, s) := by
        simp only [pollLoop, if_neg hlt]
      rw [hstep] at h
      simp only [RunResult.ok.injEq, Prod.mk.injEq] at h
      obtain ⟨rfl, rfl, rfl⟩ := h
      refine ⟨0, by omega, by simp [countIn], by omega, by omega⟩

/-- C6: provided `poll_interval_minutes` is positive and the stop
callback never fires (and `dry_run` is off), `run_until_full` runs
`run_once` once immediately, re-runs it exactly at the loop iterations
where `(minute + poll_offset_minutes) mod poll_interval_minutes = 0`,
and exits only once the accumulated total (existing plus all `run_once`
results) reaches `max_missions`, returning that total. -/
theorem C6_runUntilFull_spec (R : Runner) (minute : Nat → Int) (scanFuel loopFuel : Nat)
    (existing : Nat) (s : GameState)
    (hpos : 0 < R.config.poll_interval_minutes)
    (hstop : ∀ n, R.stop n = false) (hdry : R.config.dry_run = false)
    (hfuel : scanFuelOK scanFuel R) :
    ∀ t itF s2, runUntilFull R minute scanFuel loopFuel existing s = .ok (t, itF, s2) →
      R.config.max_missions ≤ t ∧
      t = existing + expectedTotal R * (1 + countIn (alignedAt R minute) 0 itF) ∧
      ∀ j, j < itF →
        existing + expectedTotal R * (1 + countIn (alignedAt R minute) 0 j) <
          R.config.max_missions := by
  intro t itF s2 h
  obtain ⟨s1, hro, -⟩ := runOnce_ok R scanFuel hstop hdry hfuel s
  unfold runUntilFull at h
  rw [hro] at h
  simp only [checkStop, hstop, Bool.false_eq_true, if_false] at h
  obtain ⟨k, hit, htot, hmax, hmin⟩ := pollLoop_ok R minute scanFuel hstop hdry hfuel
    loopFuel 0 (existing + expectedTotal R) _ t itF s2 h
  have hk : k = itF := by omega
  subst hk
  refine ⟨hmax, ?_, ?_⟩
  · rw [htot]
    simp only [Nat.mul_add, Nat.mul_one]
    omega
  · intro j hj
    have := hmin j (by omega)
    simp only [Nat.mul_add, Nat.mul_one]
    omega

/-- Witness for C6 at a concrete runner: depot of 2, every minute
aligned, each scan collecting one mission. -/
theorem C6_runUntilFull_spec_witness :
    demoRunnerC6.config.max_missions ≤ 2 ∧
    2 = 0 + expectedTotal demoRunnerC6 * (1 + countIn (alignedAt demoRunnerC6 demoMinute) 0 1) := by
  have h := C6_runUntilFull_spec demoRunnerC6 demoMinute 2 2 0 state0
    (by decide) (fun _ => rfl) rfl (fun c _ => by simp [demoRunnerC6, demoGame])
    2 1
    ⟨[], 6, [Event.openBoard, Event.navigate ['t'], Event.accept, Event.next, Event.starport,
      Event.openBoard, Event.navigate ['t'], Event.accept, Event.next, Event.starport]⟩
    (by decide)
  exact ⟨h.1, h.2.1⟩

theorem scanLoop_succ_step (R : Runner) (category : List Char) (fuel acc : Nat) (s : GameState)
    (hb : gAtBottom s = false) (hst : R.stop s.ticks = false) :
    scanLoop R category (fuel + 1) acc s =
      scanLoop R category fuel
        (acc + (acceptMatchingMissions R (gOcrMission ⟨s.current, s.ticks + 1, s.log⟩) category
          ⟨s.current, s.ticks + 1, s.log⟩).1)
        (if R.config.dry_run then
          (acceptMatchingMissions R (gOcrMission ⟨s.current, s.ticks + 1, s.log⟩) category
            ⟨s.current, s.ticks + 1, s.log⟩).2
         else gNextMission (acceptMatchingMissions R
           (gOcrMission ⟨s.current, s.ticks + 1, s.log⟩) category
           ⟨s.current, s.ticks + 1, s.log⟩).2) := by
  simp only [scanLoop, hb, Bool.false_eq_true, if_false, checkStop, hst]

theorem scanLoop_log_ext (R : Runner) (category : List Char) :
    ∀ (fuel acc : Nat) (s : GameState),
      (∀ n s2, scanLoop R category fuel acc s = .ok (n, s2) →
        ∃ ext, s2.log = s.log ++ ext ∧ Event.starport ∉ ext) ∧
      (∀ s2, scanLoop R category fuel acc s = .interrupted s2 →
        ∃ ext, s2.log = s.log ++ ext ∧ Event.starport ∉ ext) := by
  intro fuel
  induction fuel with
  | zero =>
    intro acc s
    constructor
    · intro n s2 h
      simp [scanLoop] at h
    · intro s2 h
      simp [scanLoop] at h
  | succ fuel ih =>
    intro acc s
    by_cases hb : gAtBottom s = true
    · constructor
      · intro n s2 h
        simp only [scanLoop, if_pos hb, RunResult.ok.injEq, Prod.mk.injEq] at h
        obtain ⟨-, rfl⟩ := h
        exact ⟨[], by simp, by simp⟩
      · intro s2 h
        simp only [scanLoop, if_pos hb] at h
        simp at h
    · have hb' : gAtBottom s = false := by
        cases hx : gAtBottom s
        · rfl
        · exact absurd hx hb
      by_cases hst : R.stop s.ticks = true
      · have hstep : scanLoop R category (fuel + 1) acc s =
            .interrupted ⟨s.current, s.ticks + 1, s.log⟩ := by
          simp only [scanLoop, hb', Bool.false_eq_true, if_false, checkStop, hst, if_true]
        constructor
        · intro n s2 h
          rw [hstep] at h
          simp at h
        · intro s2 h
          rw [hstep] at h
          simp only [RunResult.interrupted.injEq] at h
          subst h
          exact ⟨[], by simp, by simp⟩
      · have hst' : R.stop s.ticks = false := by
          cases hx : R.stop s.ticks
          · rfl
          · exact absurd hx hst
        have hamm := acceptMatchingMissions_eq R
          (gOcrMission ⟨s.current, s.ticks + 1, s.log⟩) category
          ⟨s.current, s.ticks + 1, s.log⟩
        set n0 := acceptCountForText R.g.wingCheck R.rules category
          (gOcrMission ⟨s.current, s.ticks + 1, s.log⟩) with hn0
        by_cases hdry : R.config.dry_run = true
        · constructor
          · intro n s2 h
            rw [scanLoop_succ_step R category fuel acc s hb' hst', hamm] at h
            obtain ⟨ext, hlog, hns⟩ := (ih _ _).1 n s2 h
            refine ⟨ext, ?_, hns⟩
            rw [hlog]
            simp [hdry]
          · intro s2 h
            rw [scanLoop_succ_step R category fuel acc s hb' hst', hamm] at h
            obtain ⟨ext, hlog, hns⟩ := (ih _ _).2 s2 h
            refine ⟨ext, ?_, hns⟩
            rw [hlog]
            simp [hdry]
        · have hdry' : R.config.dry_run = false := by
            cases hd : R.config.dry_run
            · rfl
            · exact absurd hd hdry
          have hfix : ∀ (s2 : GameState) (ext : List Event), Event.starport ∉ ext →
              s2.log = (if R.config.dry_run then
                (acceptMatchingMissions R (gOcrMission ⟨s.current, s.ticks + 1, s.log⟩)
                  category ⟨s.current, s.ticks + 1, s.log⟩).2
                else gNextMission (acceptMatchingMissions R
                  (gOcrMission ⟨s.current, s.ticks + 1, s.log⟩) category
                  ⟨s.current, s.ticks + 1, s.log⟩).2).log ++ ext →
              ∃ ext2, s2.log = s.log ++ ext2 ∧ Event.starport ∉ ext2 := by
            intro s2 ext hns hlog
            rw [hamm] at hlog
            simp only [hdry', Bool.false_eq_true, if_false, gNextMission] at hlog
            refine ⟨(List.replicate n0 Event.accept ++ [Event.next]) ++ ext, ?_, ?_⟩
            · rw [hlog]
              simp [List.append_assoc]
            · intro hmem
              rcases List.mem_append.mp hmem with hmem1 | hmem2
              · rcases List.mem_append.mp hmem1 with hmem3 | hmem4
                · exact absurd (List.eq_of_mem_replicate hmem3) (by simp)
                · simp at hmem4
              · exact hns hmem2
          constructor
          · intro n s2 h
            rw [scanLoop_succ_step R category fuel acc s hb' hst'] at h
            obtain ⟨ext, hlog, hns⟩ := (ih _ _).1 n s2 h
            exact hfix s2 ext hns hlog
          · intro s2 h
            rw [scanLoop_succ_step R category fuel acc s hb' hst'] at h
            obtain ⟨ext, hlog, hns⟩ := (ih _ _).2 s2 h
            exact hfix s2 ext hns hlog

theorem no_starport_append {l1 l2 : List Event}
    (h1 : Event.starport ∉ l1) (h2 : Event.starport ∉ l2) :
    Event.starport ∉ l1 ++ l2 := by
  intro hm
  rcases List.mem_append.mp hm with h | h
  · exact h1 h
  · exact h2 h

theorem scanCategory_log_ext (R : Runner) (c : List Char) (fuel : Nat) (s : GameState) :
    (∀ n s2, scanCategory R c fuel s = .ok (n, s2) →
      ∃ ext, s2.log = s.log ++ ext ∧ Event.starport ∉ ext) ∧
    (∀ s2, scanCategory R c fuel s = .interrupted s2 →
      ∃ ext, s2.log = s.log ++ ext ∧ Event.starport ∉ ext) := by
  unfold scanCategory
  by_cases hdry : R.config.dry_run = true
  · rw [hdry]
    simp only [if_true]
    exact scanLoop_log_ext R c fuel 0 s
  · have hdry' : R.config.dry_run = false := by
      cases hd : R.config.dry_run
      · rfl
      · exact absurd hd hdry
    rw [hdry']
    simp only [Bool.false_eq_true, if_false]
    constructor
    · intro n s2 h
      obtain ⟨ext, hlog, hns⟩ := (scanLoop_log_ext R c fuel 0 (gNavigate R.g c s)).1 n s2 h
      refine ⟨[Event.navigate c] ++ ext, ?_, no_starport_append (by simp) hns⟩
      rw [hlog]
      simp [gNavigate, List.append_assoc]
    · intro s2 h
      obtain ⟨ext, hlog, hns⟩ := (scanLoop_log_ext R c fuel 0 (gNavigate R.g c s)).2 s2 h
      refine ⟨[Event.navigate c] ++ ext, ?_, no_starport_append (by simp) hns⟩
      rw [hlog]
      simp [gNavigate, List.append_assoc]

theorem runCategories_log_ext (R : Runner) (fuel : Nat) :
    ∀ (cats : List (List Char)) (acc : Nat) (s : GameState),
      (∀ n s2, runCategories R fuel cats acc s = .ok (n, s2) →
        ∃ ext, s2.log = s.log ++ ext ∧ Event.starport ∉ ext) ∧
      (∀ s2, runCategories R fuel cats acc s = .interrupted s2 →
        ∃ ext, s2.log = s.log ++ ext ∧ Event.starport ∉ ext) := by
  intro cats
  induction cats with
  | nil =>
    intro acc s
    constructor
    · intro n s2 h
      simp only [runCategories, RunResult.ok.injEq, Prod.mk.injEq] at h
      obtain ⟨-, rfl⟩ := h
      exact ⟨[], by simp, by simp⟩
    · intro s2 h
      simp [runCategories] at h
  | cons c rest ih =>
    intro acc s
    by_cases hst : R.stop s.ticks = true
    · have hstep : runCategories R fuel (c :: rest) acc s =
          .interrupted ⟨s.current, s.ticks + 1, s.log⟩ := by
        simp only [runCategories, checkStop, hst, if_true]
      constructor
      · intro n s2 h
        rw [hstep] at h
        simp at h
      · intro s2 h
        rw [hstep] at h
        simp only [RunResult.interrupted.injEq] at h
        subst h
        exact ⟨[], by simp, by simp⟩
    · have hst' : R.stop s.ticks = false := by
        cases hx : R.stop s.ticks
        · rfl
        · exact absurd hx hst
      cases hsc : scanCategory R c fuel ⟨s.current, s.ticks + 1, s.log⟩ with
      | fuelOut =>
        have hstep : runCategories R fuel (c :: rest) acc s = .fuelOut := by
          simp only [runCategories, checkStop, hst', Bool.false_eq_true, if_false, hsc]
        constructor
        · intro n s2 h
          rw [hstep] at h
          simp at h
        · intro s2 h
          rw [hstep] at h
          simp at h
      | interrupted s3 =>
        have hstep : runCategories R fuel (c :: rest) acc s = .interrupted s3 := by
          simp only [runCategories, checkStop, hst', Bool.false_eq_true, if_false, hsc]
        obtain ⟨ext, hlog, hns⟩ :=
          (scanCategory_log_ext R c fuel ⟨s.current, s.ticks + 1, s.log⟩).2 s3 hsc
        constructor
        · intro n s2 h
          rw [hstep] at h
          simp at h
        · intro s2 h
          rw [hstep] at h
          simp only [RunResult.interrupted.injEq] at h
          subst h
          exact ⟨ext, hlog, hns⟩
      | ok p =>
        obtain ⟨m, s3⟩ := p
        have hstep : runCategories R fuel (c :: rest) acc s =
            runCategories R fuel rest (acc + m)
              (if rest.isEmpty then s3 else
                if R.config.dry_run then s3 else gReturnCats s3) := by
          simp only [runCategories, checkStop, hst', Bool.false_eq_true, if_false, hsc]
        obtain ⟨ext1, hlog1, hns1⟩ :=
          (scanCategory_log_ext R c fuel ⟨s.current, s.ticks + 1, s.log⟩).1 m s3 hsc
        have hbr : ∃ ext3,
            (if rest.isEmpty then s3 else
              if R.config.dry_run then s3 else gReturnCats s3).log = s3.log ++ ext3 ∧
            Event.starport ∉ ext3 := by
          cases rest.isEmpty
          · cases R.config.dry_run
            · exact ⟨[Event.returnCats], by simp [gReturnCats], by simp⟩
            · exact ⟨[], by simp, by simp⟩
          · exact ⟨[], by simp, by simp⟩
        obtain ⟨ext3, hlog3, hns3⟩ := hbr
        constructor
        · intro n s2 h
          rw [hstep] at h
          obtain ⟨ext2, hlog2, hns2⟩ := (ih _ _).1 n s2 h
          refine ⟨(ext1 ++ ext3) ++ ext2, ?_,
            no_starport_append (no_starport_append hns1 hns3) hns2⟩
          rw [hlog2, hlog3, hlog1]
          simp [List.append_assoc]
        · intro s2 h
          rw [hstep] at h
          obtain ⟨ext2, hlog2, hns2⟩ := (ih _ _).2 s2 h
          refine ⟨(ext1 ++ ext3) ++ ext2, ?_,
            no_starport_append (no_starport_append hns1 hns3) hns2⟩
          rw [hlog2, hlog3, hlog1]
          simp [List.append_assoc]

/-- C7: once the stop callback returns `True` at a check point of
`run_once` (before a category scan or before each mission), the runner
propagates `InterruptedError`; before propagating it appends exactly one
`return_to_starport` call after which nothing further happens — in
particular no further mission is accepted — and skips that call under
`dry_run`. -/
theorem C7_interrupt_spec (R : Runner) (fuel : Nat) (s : GameState) :
    (∀ s2, runOnce R fuel s = .interrupted s2 →
      ∃ pre, s2.log = s.log ++ pre ++ (if R.config.dry_run then [] else [Event.starport]) ∧
        Event.starport ∉ pre) ∧
    (getUniqueCategories R.rules ≠ [] → R.stop s.ticks = true →
      (runOnce R fuel s).isInterrupted = true) := by
  constructor
  · intro s2 h
    unfold runOnce at h
    by_cases hc : (getUniqueCategories R.rules).isEmpty = true
    · rw [if_pos hc] at h
      simp at h
    · rw [if_neg hc] at h
      dsimp only at h
      cases hrc : runCategories R fuel (getUniqueCategories R.rules) 0
          (if R.config.dry_run then s else gOpenBoard s) with
      | fuelOut =>
        rw [hrc] at h
        simp at h
      | ok p =>
        obtain ⟨m, s3⟩ := p
        rw [hrc] at h
        simp at h
      | interrupted s3 =>
        rw [hrc] at h
        simp only [RunResult.interrupted.injEq] at h
        subst h
        obtain ⟨ext, hlog, hns⟩ := (runCategories_log_ext R fuel
          (getUniqueCategories R.rules) 0 (if R.config.dry_run then s else gOpenBoard s)).2
          s3 hrc
        have hopen : ∃ ext0, (if R.config.dry_run then s else gOpenBoard s).log =
            s.log ++ ext0 ∧ Event.starport ∉ ext0 := by
          cases R.config.dry_run
          · exact ⟨[Event.openBoard], by simp [gOpenBoard], by simp⟩
          · exact ⟨[], by simp, by simp⟩
        obtain ⟨ext0, hlog0, hns0⟩ := hopen
        refine ⟨ext0 ++ ext, ?_, no_starport_append hns0 hns⟩
        cases hd : R.config.dry_run
        · simp only [hd, Bool.false_eq_true, if_false, gStarport]
          rw [hlog, hlog0]
          simp [List.append_assoc]
        · simp only [hd, if_true, List.append_nil]
          rw [hlog, hlog0]
          simp [List.append_assoc]
  · intro hne hstop
    unfold runOnce
    rw [if_neg (by simp [hne])]
    rcases hcats : getUniqueCategories R.rules with - | ⟨c, rest⟩
    · exact absurd hcats hne
    · have hticks : (if R.config.dry_run then s else gOpenBoard s).ticks = s.ticks := by
        cases R.config.dry_run
        · simp [gOpenBoard]
        · simp
      have hstep : runCategories R fuel (c :: rest) 0
          (if R.config.dry_run then s else gOpenBoard s) =
          .interrupted ⟨(if R.config.dry_run then s else gOpenBoard s).current,
            (if R.config.dry_run then s else gOpenBoard s).ticks + 1,
            (if R.config.dry_run then s else gOpenBoard s).log⟩ := by
        simp only [runCategories, checkStop, hticks, hstop, if_true]
      dsimp only
      rw [hstep]
      simp [RunResult.isInterrupted]

/-- Witness for C7 at a concrete runner whose stop callback is already
set when the scan begins. -/
theorem C7_interrupt_spec_witness :
    (runOnce demoRunnerC7 1 state0).isInterrupted = true :=
  (C7_interrupt_spec demoRunnerC7 1 state0).2 (by decide) rfl

end EDAM
